import Mathlib

/-!
Shallow embedding of the Options registry library (src/Options.h and
src/polymorphic.h): a typed option-declaration registry.  Option names
(C++ std::string) are modelled as lists of characters; the single value
domain of all option value types is abstracted to Int; dynamic_cast
between option types is modelled by an abstract boolean subtype query.
Presentation metadata (caption, line lengths) is not modelled.
-/

/-- Character-list model of the C++ std::string used for option names. -/
abbrev CName := List Char

/-- Error conditions raised by the registry and option operations.  The
C++ code throws std::logic_error, std::runtime_error or
std::invalid_argument; the distinct throw sites are told apart here. -/
inductive CErr where
  /-- check_no_name_collisions: same name, candidate type unrelated. -/
  | nameConflict
  /-- find_option_const: more than one holder matches the queried type. -/
  | multipleInstances
  /-- get: the queried option type was not declared. -/
  | notDeclared
  /-- Option::value: the option value is not set. -/
  | noValue
  /-- forget: option not found. -/
  | notFound
  /-- OptionBase::get_options: option not associated with any Options object. -/
  | notAssociated
  /-- name parsing: malformed name specification string. -/
  | nameFormat
  /-- parse: an input key matches no declared option. -/
  | unrecognizedKey
  /-- check_valid during parse: a set value fails its validity predicate. -/
  | invalidValue
deriving DecidableEq

/-- Split a character list at every comma, as boost splits the name
specification string.  Modelled from the spec: the name grammar treats
the comma as the separator between the long and short tokens. -/
def splitOnComma : List Char → List (List Char)
  | [] => [[]]
  | c :: cs =>
    if c = ',' then [] :: splitOnComma cs
    else
      match splitOnComma cs with
      | [] => [[c]]
      | t :: ts => (c :: t) :: ts

/-- True when the token is exactly one alphabetic character. -/
def isSingleAlpha : List Char → Bool
  | [c] => c.isAlpha
  | _ => false

/-- Modelled from the spec: OptionBase::name_short and
OptionBase::name_long are assert(false) stubs in src/Options.h, so the
name-specification parser is reconstructed from the spec grammar: a name
is either a long token, or a long token and a single-letter short token
separated by a comma, in either order.  When both tokens could be the
short one, the second token is taken as the short name (the long-first
convention of the boost name specification). -/
def split_name (nm : CName) : Except CErr (Option Char × CName) :=
  match splitOnComma nm with
  | [l] => if l = [] then .error .nameFormat else .ok (none, l)
  | [t1, t2] =>
    if isSingleAlpha t2 && decide (t1 ≠ []) then .ok (some (t2.headD 'A'), t1)
    else if isSingleAlpha t1 && decide (t2 ≠ []) then .ok (some (t1.headD 'A'), t2)
    else .error .nameFormat
  | _ => .error .nameFormat

/-- Short option name parsed from a name specification; none when the
specification holds no short name. -/
def name_short (nm : CName) : Except CErr (Option Char) :=
  (split_name nm).map Prod.fst

/-- Long option name parsed from a name specification. -/
def name_long (nm : CName) : Except CErr CName :=
  (split_name nm).map Prod.snd

/-- Rebuild a name specification string from parsed parts, long first. -/
def reconstruct_name : Option Char × CName → CName
  | (none, l) => l
  | (some c, l) => l ++ [','] ++ [c]

/-- Signature of a closed world of concrete option types: the dynamic
subtype query that dynamic_cast performs, the virtual name(),
default_value() and is_valid() methods.  name is a pure function of the
concrete type, as the spec requires of every option implementation. -/
structure OptSig where
  Ty : Type
  isSub : Ty → Ty → Bool
  name : Ty → CName
  default_value : Ty → Option Int
  is_valid : Ty → Int → Bool

/-- Value Holder: the polymorphic wrapper (wrapper_impl in
polymorphic.h) owning one option instance.  ty is the most-derived
concrete type of the wrapped object; val is the Option::_value member;
bound is the OptionBase::_options back-reference, identified by the
owning registry number.  A default-constructed holder models an option
constructed directly, never bound to a registry. -/
structure Holder (σ : OptSig) where
  ty : σ.Ty
  val : Option Int := none
  bound : Option Nat := none

/-- Registry state: the identity of the registry object (the C++ this
pointer, abstracted to a number) and the ordered holder sequence. -/
structure Options (σ : OptSig) where
  selfId : Nat
  holders : List (Holder σ) := []

/-- Loop body of Options::find_option_const: scan the holders in order,
fail when a second holder matching the queried type is seen. -/
def findLoop {σ : OptSig} (T : σ.Ty) :
    List (Holder σ) → Option Nat → Nat → Except CErr (Option Nat)
  | [], found, _ => .ok found
  | h :: rest, found, i =>
    if σ.isSub h.ty T then
      match found with
      | some _ => .error .multipleInstances
      | none => findLoop T rest (some i) (i + 1)
    else
      findLoop T rest found (i + 1)

/-- Options::find_option_const: index of the unique holder whose wrapped
object is of the queried type or a more derived one; none when no holder
matches; an error when more than one matches. -/
def Options.find_option_const {σ : OptSig} (s : Options σ) (T : σ.Ty) :
    Except CErr (Option Nat) :=
  findLoop T s.holders none 0

/-- Options::is_declared. -/
def Options.is_declared {σ : OptSig} (s : Options σ) (T : σ.Ty) : Except CErr Bool :=
  (s.find_option_const T).map Option.isSome

/-- Options::check_no_name_collisions: reject when some holder has the
candidate type's name but its wrapped object is not of the candidate
type or derived. -/
def Options.check_no_name_collisions {σ : OptSig} (s : Options σ) (T : σ.Ty) :
    Except CErr Unit :=
  if s.holders.any (fun h => decide (σ.name h.ty = σ.name T) && ! σ.isSub h.ty T) then
    .error .nameConflict
  else
    .ok ()

/-- Options::declare: skip when a holder of the type or a more derived
one exists, otherwise check name collisions and append a fresh
default-constructed instance bound to this registry. -/
def Options.declare {σ : OptSig} (s : Options σ) (T : σ.Ty) : Except CErr (Options σ) :=
  match s.find_option_const T with
  | .error e => .error e
  | .ok (some _) => .ok s
  | .ok none =>
    match s.check_no_name_collisions T with
    | .error e => .error e
    | .ok _ => .ok { s with holders := s.holders ++ [{ ty := T, val := none, bound := some s.selfId }] }

/-- Options::forget: erase the unique matching holder, error when none. -/
def Options.forget {σ : OptSig} (s : Options σ) (T : σ.Ty) : Except CErr (Options σ) :=
  match s.find_option_const T with
  | .error e => .error e
  | .ok none => .error .notFound
  | .ok (some i) => .ok { s with holders := s.holders.eraseIdx i }

/-- Options::get: the unique holder matching the queried type.  The
inner none branch is unreachable because find_option_const only returns
indices of scanned elements. -/
def Options.get {σ : OptSig} (s : Options σ) (T : σ.Ty) : Except CErr (Holder σ) :=
  match s.find_option_const T with
  | .error e => .error e
  | .ok none => .error .notDeclared
  | .ok (some i) =>
    match s.holders.get? i with
    | some h => .ok h
    | none => .error .notDeclared

/-- Options::get_value, via Option::value which fails when the value is
not set. -/
def Options.get_value {σ : OptSig} (s : Options σ) (T : σ.Ty) : Except CErr Int :=
  match s.get T with
  | .error e => .error e
  | .ok h =>
    match h.val with
    | some v => .ok v
    | none => .error .noValue

/-- Replace the element at an index, leaving other elements unchanged. -/
def modifyIdx {α : Type _} : List α → Nat → (α → α) → List α
  | [], _, _ => []
  | a :: as, 0, f => f a :: as
  | a :: as, n + 1, f => a :: modifyIdx as n f

/-- Options::set_value: Option::set on the unique matching holder,
silently overwriting any old value. -/
def Options.set_value {σ : OptSig} (s : Options σ) (T : σ.Ty) (v : Int) :
    Except CErr (Options σ) :=
  match s.find_option_const T with
  | .error e => .error e
  | .ok none => .error .notDeclared
  | .ok (some i) =>
    .ok { s with holders := modifyIdx s.holders i (fun h => { h with val := some v }) }

/-- wrapper_impl::clone: a value copy of the wrapped concrete object,
memberwise, producing a new wrapper of the same actual type.  The
polymorphic copy constructor and copy assignment delegate to this. -/
def Holder.clone {σ : OptSig} (h : Holder σ) : Holder σ :=
  { ty := h.ty, val := h.val, bound := h.bound }

/-- Loop shared by the Options copy and move operations: assign_to(this)
on every held option, rebinding its back-reference to this registry. -/
def Options.rebindAll {σ : OptSig} (s : Options σ) : Options σ :=
  { s with holders := s.holders.map (fun h => { h with bound := some s.selfId }) }

/-- Options copy constructor: clone every holder, then rebind every
back-reference to the new registry. -/
def Options.copyCtor {σ : OptSig} (src : Options σ) (newId : Nat) : Options σ :=
  Options.rebindAll { selfId := newId, holders := src.holders.map Holder.clone }

/-- Options move constructor: take the holders, then rebind. -/
def Options.moveCtor {σ : OptSig} (src : Options σ) (newId : Nat) : Options σ :=
  Options.rebindAll { selfId := newId, holders := src.holders }

/-- Options copy assignment: clone the source holders into the
destination object, then rebind to the destination. -/
def Options.assignFrom {σ : OptSig} (dst src : Options σ) : Options σ :=
  Options.rebindAll { selfId := dst.selfId, holders := src.holders.map Holder.clone }

/-- Options move assignment. -/
def Options.moveAssignFrom {σ : OptSig} (dst src : Options σ) : Options σ :=
  Options.rebindAll { selfId := dst.selfId, holders := src.holders }

/-- True when the raw input key names the given option type by its long
or short name.  The key recognition done by boost::program_options is
modelled from the spec: a key is recognized when it is the long or the
short name of a declared option. -/
def matchesKey {σ : OptSig} (T : σ.Ty) (key : CName) : Bool :=
  match split_name (σ.name T) with
  | .ok (shortc, longn) =>
    decide (key = longn) ||
      (match shortc with
       | some c => decide (key = [c])
       | none => false)
  | .error _ => false

/-- Contents of the boost variables_map for one option, modelled from
the spec: the value given in the input for the option's long or short
name when present, otherwise the option's registered default value. -/
def vmLookup {σ : OptSig} (input : List (CName × Int)) (T : σ.Ty) : Option Int :=
  match input.find? (fun kv => matchesKey T kv.1) with
  | some kv => some kv.2
  | none => σ.default_value T

/-- Option::set_from_vm on one holder: set the value when the
variables_map holds an entry for this option, else leave it unchanged. -/
def set_from_vm_holder {σ : OptSig} (input : List (CName × Int)) (h : Holder σ) : Holder σ :=
  match vmLookup input h.ty with
  | some v => { h with val := some v }
  | none => h

/-- Options::parse: reject unrecognized input keys, distribute the
variables_map to every holder, then check_valid every option that has a
value.  The boost tokenizing and store/notify default insertion are the
external collaborator boundary, modelled from the spec. -/
def Options.parse {σ : OptSig} (s : Options σ) (input : List (CName × Int)) :
    Except CErr (Options σ) :=
  if input.any (fun kv => ! s.holders.any (fun h => matchesKey h.ty kv.1)) then
    .error .unrecognizedKey
  else if (s.holders.map (set_from_vm_holder input)).any (fun h =>
      match h.val with
      | some v => ! σ.is_valid h.ty v
      | none => false) then
    .error .invalidValue
  else
    .ok { s with holders := s.holders.map (set_from_vm_holder input) }

/-- OptionBase::get_options: dereference the back-reference, failing
when the option was never assigned to a registry.  The world function
resolves registry identities to registry states. -/
def OptionBase.get_options {σ : OptSig} (world : Nat → Options σ) (h : Holder σ) :
    Except CErr (Options σ) :=
  match h.bound with
  | none => .error .notAssociated
  | some rid => pure (world rid)

/-- OptionBase::get: cross-option lookup of another option through the
back-reference. -/
def OptionBase.get {σ : OptSig} (world : Nat → Options σ) (h : Holder σ) (T : σ.Ty) :
    Except CErr (Holder σ) :=
  match OptionBase.get_options world h with
  | .error e => .error e
  | .ok os => os.get T

/-- OptionBase::get_value: cross-option value lookup through the
back-reference. -/
def OptionBase.get_value {σ : OptSig} (world : Nat → Options σ) (h : Holder σ) (T : σ.Ty) :
    Except CErr Int :=
  match OptionBase.get_options world h with
  | .error e => .error e
  | .ok os => os.get_value T

/-- Registry states reachable from an empty registry through the public
operations: declare, forget, set_value, parse, and whole-registry copy,
move and assignment. -/
inductive Reachable (σ : OptSig) : Options σ → Prop where
  | empty (rid : Nat) : Reachable σ { selfId := rid, holders := [] }
  | decl {s : Options σ} {T : σ.Ty} {s2 : Options σ} :
      Reachable σ s → s.declare T = .ok s2 → Reachable σ s2
  | forg {s : Options σ} {T : σ.Ty} {s2 : Options σ} :
      Reachable σ s → s.forget T = .ok s2 → Reachable σ s2
  | setv {s : Options σ} {T : σ.Ty} {v : Int} {s2 : Options σ} :
      Reachable σ s → s.set_value T v = .ok s2 → Reachable σ s2
  | pars {s : Options σ} {input : List (CName × Int)} {s2 : Options σ} :
      Reachable σ s → s.parse input = .ok s2 → Reachable σ s2
  | copy {s : Options σ} (newId : Nat) :
      Reachable σ s → Reachable σ (s.copyCtor newId)
  | move {s : Options σ} (newId : Nat) :
      Reachable σ s → Reachable σ (s.moveCtor newId)
  | assign {dst s : Options σ} :
      Reachable σ dst → Reachable σ s → Reachable σ (dst.assignFrom s)
  | moveAssign {dst s : Options σ} :
      Reachable σ dst → Reachable σ s → Reachable σ (dst.moveAssignFrom s)

/-- Two-type world: a base option type and one derived from it. -/
inductive TyBD where
  | base
  | der
deriving DecidableEq

/-- dynamic_cast relation for TyBD: der is-a base, both reflexive. -/
def subBD : TyBD → TyBD → Bool
  | .base, .base => true
  | .der, _ => true
  | .base, .der => false

/-- World where the derived type keeps the name of its base. -/
def sigSame : OptSig :=
  { Ty := TyBD
    isSub := subBD
    name := fun _ => ['x']
    default_value := fun _ => none
    is_valid := fun _ _ => true }

/-- World where the derived type overrides name() to a different string. -/
def sigDiff : OptSig :=
  { Ty := TyBD
    isSub := subBD
    name := fun t => match t with | .base => ['b'] | .der => ['d']
    default_value := fun _ => none
    is_valid := fun _ _ => true }

/-- Three-type world: a base and two sibling derived types. -/
inductive TySib where
  | base
  | der1
  | der2
deriving DecidableEq

/-- dynamic_cast relation for TySib: each sibling is-a base. -/
def subSib : TySib → TySib → Bool
  | .base, .base => true
  | .der1, .der1 => true
  | .der2, .der2 => true
  | .der1, .base => true
  | .der2, .base => true
  | _, _ => false

/-- World with two differently named siblings of one base type. -/
def sigSib : OptSig :=
  { Ty := TySib
    isSub := subSib
    name := fun t => match t with | .base => ['b'] | .der1 => ['p'] | .der2 => ['q']
    default_value := fun _ => none
    is_valid := fun _ _ => true }

/-- Two unrelated option types. -/
inductive TyAB where
  | a
  | b
deriving DecidableEq

/-- dynamic_cast relation for TyAB: only reflexive. -/
def subAB : TyAB → TyAB → Bool
  | .a, .a => true
  | .b, .b => true
  | _, _ => false

/-- Unrelated types sharing the long name x but with different short
names, hence different full name specification strings. -/
def sigLong : OptSig :=
  { Ty := TyAB
    isSub := subAB
    name := fun t => match t with | .a => ['x', ',', 'a'] | .b => ['x', ',', 'b']
    default_value := fun _ => none
    is_valid := fun _ _ => true }

/-- Unrelated types with the same full name specification string. -/
def sigEqName : OptSig :=
  { Ty := TyAB
    isSub := subAB
    name := fun _ => ['x']
    default_value := fun _ => none
    is_valid := fun _ _ => true }

/-- One-type world with a default value, the integer option named n with
short name N and default 1000 of the spec's first end-to-end scenario. -/
inductive TyN where
  | n
deriving DecidableEq

/-- World of the single defaulted option. -/
def sigN : OptSig :=
  { Ty := TyN
    isSub := fun _ _ => true
    name := fun _ => ['n', ',', 'N']
    default_value := fun _ => some 1000
    is_valid := fun _ _ => true }

/-- The find loop never resets its accumulator: once a match is stored,
the result is that index or the duplicate error, never none. -/
theorem findLoop_some_ne_ok_none {σ : OptSig} (T : σ.Ty) (l : List (Holder σ)) (j i : Nat) :
    findLoop T l (some j) i ≠ .ok none := by
  induction l generalizing i with
  | nil => simp [findLoop]
  | cons a l ih =>
    simp only [findLoop]
    split
    · simp
    · exact ih (i + 1)

/-- When the find loop reports no match, no scanned holder matches. -/
theorem findLoop_ok_none_sub {σ : OptSig} {T : σ.Ty} {l : List (Holder σ)}
    {acc : Option Nat} {i : Nat} (hfind : findLoop T l acc i = .ok none) :
    ∀ h ∈ l, σ.isSub h.ty T = false := by
  induction l generalizing acc i with
  | nil => simp
  | cons a l ih =>
    intro h hmem
    simp only [findLoop] at hfind
    by_cases hs : σ.isSub a.ty T
    · rw [if_pos hs] at hfind
      cases acc with
      | some j => cases hfind
      | none => exact absurd hfind (findLoop_some_ne_ok_none T l i (i + 1))
    · rw [if_neg hs] at hfind
      rcases List.mem_cons.mp hmem with heq | hmem2
      · subst heq
        exact Bool.eq_false_iff.mpr hs
      · exact ih hfind h hmem2

/-- Appending a matching holder to a list with no match makes the find
loop report exactly that new holder. -/
theorem findLoop_append_last {σ : OptSig} {T : σ.Ty} {l : List (Holder σ)} (h : Holder σ)
    {i : Nat} (hnone : findLoop T l none i = .ok none) (hsub : σ.isSub h.ty T = true) :
    findLoop T (l ++ [h]) none i = .ok (some (i + l.length)) := by
  induction l generalizing i with
  | nil => simp [findLoop, hsub]
  | cons a l ih =>
    simp only [findLoop, List.cons_append] at hnone ⊢
    by_cases hs : σ.isSub a.ty T
    · rw [if_pos hs] at hnone
      exact absurd hnone (findLoop_some_ne_ok_none T l i (i + 1))
    · rw [if_neg hs] at hnone ⊢
      have h3 : i + 1 + l.length = i + (l.length + 1) := by omega
      rw [List.length_cons, ← h3]
      exact ih hnone

/-- A passed collision check means every holder sharing the candidate
name wraps an object of the candidate type or derived. -/
theorem check_ok_names {σ : OptSig} {s : Options σ} {T : σ.Ty} {u : Unit}
    (hchk : s.check_no_name_collisions T = .ok u) :
    ∀ h ∈ s.holders, σ.name h.ty = σ.name T → σ.isSub h.ty T = true := by
  intro h hmem hname
  unfold Options.check_no_name_collisions at hchk
  split at hchk
  · cases hchk
  · next hany =>
    by_contra hns
    apply hany
    rw [List.any_eq_true]
    refine ⟨h, hmem, ?_⟩
    simp [hname, Bool.eq_false_iff.mpr hns]

/-- The find loop only looks at the concrete types of the holders. -/
theorem findLoop_map {σ : OptSig} (T : σ.Ty) (f : Holder σ → Holder σ)
    (hf : ∀ h, (f h).ty = h.ty) (l : List (Holder σ)) (acc : Option Nat) (i : Nat) :
    findLoop T (l.map f) acc i = findLoop T l acc i := by
  induction l generalizing acc i with
  | nil => rfl
  | cons a l ih =>
    simp only [List.map_cons, findLoop, hf a]
    by_cases hs : σ.isSub a.ty T
    · rw [if_pos hs, if_pos hs]
      cases acc with
      | some j => rfl
      | none => exact ih (some i) (i + 1)
    · rw [if_neg hs, if_neg hs]
      exact ih acc (i + 1)

/-- Modifying one element in a type-preserving way does not change what
the find loop sees. -/
theorem findLoop_modifyIdx {σ : OptSig} (T : σ.Ty) (f : Holder σ → Holder σ)
    (hf : ∀ h, (f h).ty = h.ty) (l : List (Holder σ)) (j : Nat) (acc : Option Nat) (i : Nat) :
    findLoop T (modifyIdx l j f) acc i = findLoop T l acc i := by
  induction l generalizing j acc i with
  | nil => rfl
  | cons a l ih =>
    cases j with
    | zero =>
      simp only [modifyIdx, findLoop, hf a]
    | succ j =>
      simp only [modifyIdx, findLoop]
      by_cases hs : σ.isSub a.ty T
      · rw [if_pos hs, if_pos hs]
        cases acc with
        | some k => rfl
        | none => exact ih j (some i) (i + 1)
      · rw [if_neg hs, if_neg hs]
        exact ih j acc (i + 1)

/-- Mapping a function that is blind to the modified data commutes past
a point modification. -/
theorem map_modifyIdx {α β : Type _} (g : α → β) (f : α → α)
    (hgf : ∀ a, g (f a) = g a) (l : List α) (j : Nat) :
    (modifyIdx l j f).map g = l.map g := by
  induction l generalizing j with
  | nil => rfl
  | cons a l ih =>
    cases j with
    | zero => simp only [modifyIdx, List.map_cons, hgf a]
    | succ j => simp only [modifyIdx, List.map_cons, ih j]

/-- Names of the declared options, in holder order. -/
def namesOf {σ : OptSig} (s : Options σ) : List CName :=
  s.holders.map (fun h => σ.name h.ty)

/-- set_from_vm never changes the concrete type of the held option. -/
theorem set_from_vm_holder_ty {σ : OptSig} (input : List (CName × Int)) (h : Holder σ) :
    (set_from_vm_holder input h).ty = h.ty := by
  unfold set_from_vm_holder
  split <;> rfl

/-- A successful declare keeps the held names pairwise distinct. -/
theorem declare_preserves_distinct {σ : OptSig} {s s2 : Options σ} {T : σ.Ty}
    (hd : (namesOf s).Pairwise (· ≠ ·)) (h : s.declare T = .ok s2) :
    (namesOf s2).Pairwise (· ≠ ·) := by
  unfold Options.declare at h
  split at h
  · cases h
  · injection h with h2
    subst h2
    exact hd
  · next hfind =>
    split at h
    · cases h
    · next u hchk =>
      injection h with h2
      subst h2
      unfold namesOf at hd ⊢
      simp only [List.map_append, List.map_cons, List.map_nil]
      rw [List.pairwise_append]
      refine ⟨hd, List.pairwise_singleton _ _, ?_⟩
      intro a ha b hb
      simp only [List.mem_singleton] at hb
      subst hb
      rcases List.mem_map.mp ha with ⟨h3, hmem, rfl⟩
      intro hcontra
      have hsub := check_ok_names hchk h3 hmem hcontra
      have hnsub := findLoop_ok_none_sub hfind h3 hmem
      rw [hsub] at hnsub
      cases hnsub

/-- A successful forget keeps the held names pairwise distinct. -/
theorem forget_preserves_distinct {σ : OptSig} {s s2 : Options σ} {T : σ.Ty}
    (hd : (namesOf s).Pairwise (· ≠ ·)) (h : s.forget T = .ok s2) :
    (namesOf s2).Pairwise (· ≠ ·) := by
  unfold Options.forget at h
  split at h
  · cases h
  · cases h
  · next i hfind =>
    injection h with h2
    subst h2
    unfold namesOf at hd ⊢
    exact hd.sublist (List.Sublist.map _ (List.eraseIdx_sublist _ i))

/-- A successful set_value keeps the held names unchanged. -/
theorem set_value_names {σ : OptSig} {s s2 : Options σ} {T : σ.Ty} {v : Int}
    (h : s.set_value T v = .ok s2) : namesOf s2 = namesOf s := by
  unfold Options.set_value at h
  split at h
  · cases h
  · cases h
  · next i hfind =>
    injection h with h2
    subst h2
    unfold namesOf
    exact map_modifyIdx (fun h => σ.name h.ty) (fun h => { h with val := some v })
      (fun a => rfl) s.holders i

/-- A successful parse keeps the held names unchanged. -/
theorem parse_names {σ : OptSig} {s s2 : Options σ} {input : List (CName × Int)}
    (h : s.parse input = .ok s2) : namesOf s2 = namesOf s := by
  unfold Options.parse at h
  split at h
  · cases h
  · split at h
    · cases h
    · injection h with h2
      subst h2
      unfold namesOf
      rw [List.map_map]
      apply List.map_congr_left
      intro a _
      exact congrArg σ.name (set_from_vm_holder_ty input a)

/-- Rebinding back-references keeps the held names unchanged. -/
theorem rebindAll_names {σ : OptSig} (s : Options σ) :
    namesOf s.rebindAll = namesOf s := by
  unfold namesOf Options.rebindAll
  rw [List.map_map]
  rfl

/-- Copying a registry keeps the held names unchanged. -/
theorem copyCtor_names {σ : OptSig} (s : Options σ) (newId : Nat) :
    namesOf (s.copyCtor newId) = namesOf s := by
  unfold Options.copyCtor
  rw [rebindAll_names]
  unfold namesOf
  rw [List.map_map]
  rfl

/-- Moving a registry keeps the held names unchanged. -/
theorem moveCtor_names {σ : OptSig} (s : Options σ) (newId : Nat) :
    namesOf (s.moveCtor newId) = namesOf s := by
  unfold Options.moveCtor
  rw [rebindAll_names]
  rfl

/-- Copy assignment carries over exactly the source names. -/
theorem assignFrom_names {σ : OptSig} (dst s : Options σ) :
    namesOf (dst.assignFrom s) = namesOf s := by
  unfold Options.assignFrom
  rw [rebindAll_names]
  unfold namesOf
  rw [List.map_map]
  rfl

/-- Move assignment carries over exactly the source names. -/
theorem moveAssignFrom_names {σ : OptSig} (dst s : Options σ) :
    namesOf (dst.moveAssignFrom s) = namesOf s := by
  unfold Options.moveAssignFrom
  rw [rebindAll_names]
  rfl

/-- C2 (amended): in every reachable registry state the declared option
names are pairwise distinct, hence at most one holder wraps an object of
any given exact concrete type; this is preserved by declare, forget,
set_value, parse, copy, move and assignment.  The original at-most-one
per type or subtype reading fails, see the counterexample. -/
theorem c2_distinct_types_invariant {σ : OptSig} {s : Options σ}
    (hr : Reachable σ s) :
    (namesOf s).Pairwise (· ≠ ·) ∧ s.holders.Pairwise (fun a b => a.ty ≠ b.ty) := by
  have hmain : (namesOf s).Pairwise (· ≠ ·) := by
    induction hr with
    | empty rid => simp [namesOf]
    | decl hr2 h ih => exact declare_preserves_distinct ih h
    | forg hr2 h ih => exact forget_preserves_distinct ih h
    | setv hr2 h ih => rw [set_value_names h]; exact ih
    | pars hr2 h ih => rw [parse_names h]; exact ih
    | copy newId hr2 ih => rw [copyCtor_names]; exact ih
    | move newId hr2 ih => rw [moveCtor_names]; exact ih
    | assign hrd hr2 ihd ih => rw [assignFrom_names]; exact ih
    | moveAssign hrd hr2 ihd ih => rw [moveAssignFrom_names]; exact ih
  refine ⟨hmain, ?_⟩
  have h2 : s.holders.Pairwise (fun a b => σ.name a.ty ≠ σ.name b.ty) := by
    unfold namesOf at hmain
    exact (List.pairwise_map).mp hmain
  exact h2.imp (fun hne hty => hne (congrArg σ.name hty))

/-- Registry over sigSame holding only the derived option. -/
def sSameD : Options sigSame :=
  { selfId := 0, holders := [{ ty := TyBD.der, val := none, bound := some 0 }] }

/-- Registry over sigSame holding only the base option. -/
def sSameB : Options sigSame :=
  { selfId := 0, holders := [{ ty := TyBD.base, val := none, bound := some 0 }] }

/-- Registry over sigSib after declaring the first sibling. -/
def sSib1 : Options sigSib :=
  { selfId := 0, holders := [{ ty := TySib.der1, val := none, bound := some 0 }] }

/-- Registry over sigSib after declaring both siblings. -/
def sSib2 : Options sigSib :=
  { selfId := 0
    holders := [{ ty := TySib.der1, val := none, bound := some 0 },
                { ty := TySib.der2, val := none, bound := some 0 }] }

/-- C2 counterexample: declaring two differently named siblings of one
base type succeeds, and in the resulting reachable state two Value
Holders wrap objects whose concrete type is a subtype of the base
option type, refuting the at-most-one-reachable-per-type invariant. -/
theorem c2_two_holders_reachable_by_base :
    (({ selfId := 0, holders := [] } : Options sigSib).declare TySib.der1 = .ok sSib1) ∧
    (sSib1.declare TySib.der2 = .ok sSib2) ∧
    (sSib2.holders.countP (fun h => sigSib.isSub h.ty TySib.base) = 2) :=
  ⟨rfl, rfl, rfl⟩

/-- C2 witness: the distinct-names invariant evaluated on a concrete
reachable registry. -/
theorem c2_distinct_types_invariant_witness :
    (namesOf sSib2).Pairwise (· ≠ ·) ∧
    sSib2.holders.Pairwise (fun a b => a.ty ≠ b.ty) :=
  c2_distinct_types_invariant
    (@Reachable.decl sigSib sSib1 TySib.der2 sSib2
      (@Reachable.decl sigSib { selfId := 0, holders := [] } TySib.der1 sSib1
        (Reachable.empty 0) rfl) rfl)

/-- C7 counterexample: with two sibling holders declared, some holder
wraps a strict subtype of the base type, yet declaring the base type is
not a no-op: it fails with the internal multiple-instances error. -/
theorem c7_declare_after_siblings_fails :
    (({ selfId := 0, holders := [] } : Options sigSib).declare TySib.der1 = .ok sSib1) ∧
    (sSib1.declare TySib.der2 = .ok sSib2) ∧
    (sigSib.isSub TySib.der1 TySib.base = true) ∧
    (sSib2.declare TySib.base = .error .multipleInstances) :=
  ⟨rfl, rfl, rfl, rfl⟩

/-- C7 (amended): when the lookup finds exactly one holder wrapping the
candidate type or a subtype, declare is an observable no-op returning
the registry unchanged; consequently a second declare of the same type
after a successful one is always a no-op.  When two or more holders
match, declare instead fails, see the counterexample. -/
theorem c7_declare_idempotent_amended {σ : OptSig} {s : Options σ} {T : σ.Ty}
    (hTT : σ.isSub T T = true) :
    (∀ i, s.find_option_const T = .ok (some i) → s.declare T = .ok s) ∧
    (∀ s2, s.declare T = .ok s2 → s2.declare T = .ok s2) := by
  constructor
  · intro i hfind
    unfold Options.declare
    rw [hfind]
  · intro s2 h
    unfold Options.declare at h
    split at h
    · cases h
    · next i hfind =>
      injection h with h2
      subst h2
      unfold Options.declare
      rw [hfind]
    · next hfind =>
      split at h
      · cases h
      · next u hchk =>
        injection h with h2
        subst h2
        unfold Options.declare
        have hfind2 : Options.find_option_const
            { s with holders := s.holders ++ [{ ty := T, val := none, bound := some s.selfId }] } T
            = .ok (some (0 + s.holders.length)) := by
          unfold Options.find_option_const at hfind ⊢
          exact findLoop_append_last _ hfind hTT
        rw [hfind2]

/-- C7 witness: the no-op behavior evaluated on a concrete registry
holding the derived option. -/
theorem c7_declare_idempotent_amended_witness :
    (sigSame.isSub TyBD.der TyBD.der = true) ∧
    ((∀ i, sSameD.find_option_const TyBD.der = .ok (some i) →
        sSameD.declare TyBD.der = .ok sSameD) ∧
    (∀ s2, sSameD.declare TyBD.der = .ok s2 → s2.declare TyBD.der = .ok s2)) :=
  ⟨rfl, c7_declare_idempotent_amended (by rfl)⟩

/-- C1 counterexample: for a derived type sharing its base type's name,
declaring the base first and then the derived type does not replace the
base holder, it fails with the name-conflict error; only the reverse
order leaves the derived type active.  The two declaration orders are
therefore not equivalent. -/
theorem c1_base_then_derived_conflicts :
    (({ selfId := 0, holders := [] } : Options sigSame).declare TyBD.base = .ok sSameB) ∧
    (sSameB.declare TyBD.der = .error .nameConflict) ∧
    (({ selfId := 0, holders := [] } : Options sigSame).declare TyBD.der = .ok sSameD) ∧
    (sSameD.declare TyBD.base = .ok sSameD) :=
  ⟨rfl, rfl, rfl, rfl⟩

/-- C1 (amended): for a strict subtype D of B returning the same name,
declaring D then B leaves D as the single active implementation and B
resolves to the D holder through get, the later B declaration being a
no-op; but declaring B then D raises the name-conflict error instead of
replacing the parent holder. -/
theorem c1_order_dependence_amended {σ : OptSig} {B D : σ.Ty} {r : Nat}
    (hDB : σ.isSub D B = true) (hBD : σ.isSub B D = false)
    (hname : σ.name D = σ.name B) :
    (({ selfId := r, holders := [] } : Options σ).declare D
      = .ok { selfId := r, holders := [{ ty := D, val := none, bound := some r }] }) ∧
    (({ selfId := r, holders := [{ ty := D, val := none, bound := some r }] } : Options σ).declare B
      = .ok { selfId := r, holders := [{ ty := D, val := none, bound := some r }] }) ∧
    (({ selfId := r, holders := [{ ty := D, val := none, bound := some r }] } : Options σ).get B
      = .ok { ty := D, val := none, bound := some r }) ∧
    (({ selfId := r, holders := [] } : Options σ).declare B
      = .ok { selfId := r, holders := [{ ty := B, val := none, bound := some r }] }) ∧
    (({ selfId := r, holders := [{ ty := B, val := none, bound := some r }] } : Options σ).declare D
      = .error .nameConflict) := by
  refine ⟨rfl, ?_, ?_, rfl, ?_⟩
  · unfold Options.declare Options.find_option_const
    simp [findLoop, hDB]
  · unfold Options.get Options.find_option_const
    simp [findLoop, hDB]
  · unfold Options.declare Options.find_option_const Options.check_no_name_collisions
    simp [findLoop, hBD, hname]

/-- C1 witness: the amended order behavior evaluated in the concrete
world where the derived option keeps its base option's name. -/
theorem c1_order_dependence_amended_witness :
    (sigSame.isSub TyBD.der TyBD.base = true) ∧
    (sigSame.isSub TyBD.base TyBD.der = false) ∧
    (sigSame.name TyBD.der = sigSame.name TyBD.base) ∧
    ((({ selfId := 0, holders := [] } : Options sigSame).declare TyBD.der
      = .ok { selfId := 0, holders := [{ ty := TyBD.der, val := none, bound := some 0 }] }) ∧
    (({ selfId := 0, holders := [{ ty := TyBD.der, val := none, bound := some 0 }] } :
        Options sigSame).declare TyBD.base
      = .ok { selfId := 0, holders := [{ ty := TyBD.der, val := none, bound := some 0 }] }) ∧
    (({ selfId := 0, holders := [{ ty := TyBD.der, val := none, bound := some 0 }] } :
        Options sigSame).get TyBD.base
      = .ok { ty := TyBD.der, val := none, bound := some 0 }) ∧
    (({ selfId := 0, holders := [] } : Options sigSame).declare TyBD.base
      = .ok { selfId := 0, holders := [{ ty := TyBD.base, val := none, bound := some 0 }] }) ∧
    (({ selfId := 0, holders := [{ ty := TyBD.base, val := none, bound := some 0 }] } :
        Options sigSame).declare TyBD.der
      = .error .nameConflict)) :=
  ⟨rfl, rfl, rfl, c1_order_dependence_amended rfl rfl rfl⟩

/-- Registry over sigDiff holding only the base option. -/
def sDiffB : Options sigDiff :=
  { selfId := 0, holders := [{ ty := TyBD.base, val := none, bound := some 0 }] }

/-- Registry over sigDiff holding the base and then the derived option. -/
def sDiffBD : Options sigDiff :=
  { selfId := 0
    holders := [{ ty := TyBD.base, val := none, bound := some 0 },
                { ty := TyBD.der, val := none, bound := some 0 }] }

/-- Registry over sigDiff holding only the derived option. -/
def sDiffD : Options sigDiff :=
  { selfId := 0, holders := [{ ty := TyBD.der, val := none, bound := some 0 }] }

/-- C3: evaluation at the failing input.  For a strict subtype that
overrides name() to a different string, declaring base then derived
inserts a second holder with no error, and declaring derived then base
is a silent no-op: no name-conflict error is raised in either order,
the doubled state only failing later inside get on the base type. -/
theorem c3_different_name_subtype_accepted :
    (sigDiff.isSub TyBD.der TyBD.base = true) ∧
    (sigDiff.name TyBD.der ≠ sigDiff.name TyBD.base) ∧
    (({ selfId := 0, holders := [] } : Options sigDiff).declare TyBD.base = .ok sDiffB) ∧
    (sDiffB.declare TyBD.der = .ok sDiffBD) ∧
    (({ selfId := 0, holders := [] } : Options sigDiff).declare TyBD.der = .ok sDiffD) ∧
    (sDiffD.declare TyBD.base = .ok sDiffD) ∧
    (sDiffBD.get TyBD.base = .error .multipleInstances) :=
  ⟨rfl, by decide, rfl, rfl, rfl, rfl, rfl⟩

/-- Registry over sigLong holding the first of the two options whose
long names collide but whose full name strings differ. -/
def sLongA : Options sigLong :=
  { selfId := 0, holders := [{ ty := TyAB.a, val := none, bound := some 0 }] }

/-- Registry over sigLong holding both colliding-long-name options. -/
def sLongAB : Options sigLong :=
  { selfId := 0
    holders := [{ ty := TyAB.a, val := none, bound := some 0 },
                { ty := TyAB.b, val := none, bound := some 0 }] }

/-- C5 counterexample: two unrelated option types with the same long
name x but different short names (hence different full name strings) are
both accepted at declaration time with no name-conflict error, because
check_no_name_collisions compares whole name strings only. -/
theorem c5_long_name_collision_undetected :
    (sigLong.isSub TyAB.a TyAB.b = false) ∧
    (sigLong.isSub TyAB.b TyAB.a = false) ∧
    (name_long (sigLong.name TyAB.a) = .ok ['x']) ∧
    (name_long (sigLong.name TyAB.b) = .ok ['x']) ∧
    (({ selfId := 0, holders := [] } : Options sigLong).declare TyAB.a = .ok sLongA) ∧
    (sLongA.declare TyAB.b = .ok sLongAB) :=
  ⟨rfl, rfl, rfl, rfl, rfl, rfl⟩

/-- C5 (amended): two unrelated option types whose whole name strings
are identical are rejected with the name-conflict error at declaration
time, in either declaration order; a collision of the long names alone
is not detected, see the counterexample. -/
theorem c5_equal_fullname_conflict {σ : OptSig} {A B2 : σ.Ty} {r : Nat}
    (hAB : σ.isSub A B2 = false) (hBA : σ.isSub B2 A = false)
    (hname : σ.name A = σ.name B2) :
    (({ selfId := r, holders := [] } : Options σ).declare A
      = .ok { selfId := r, holders := [{ ty := A, val := none, bound := some r }] }) ∧
    (({ selfId := r, holders := [{ ty := A, val := none, bound := some r }] } : Options σ).declare B2
      = .error .nameConflict) ∧
    (({ selfId := r, holders := [] } : Options σ).declare B2
      = .ok { selfId := r, holders := [{ ty := B2, val := none, bound := some r }] }) ∧
    (({ selfId := r, holders := [{ ty := B2, val := none, bound := some r }] } : Options σ).declare A
      = .error .nameConflict) := by
  refine ⟨rfl, ?_, rfl, ?_⟩
  · unfold Options.declare Options.find_option_const Options.check_no_name_collisions
    simp [findLoop, hAB, hname]
  · unfold Options.declare Options.find_option_const Options.check_no_name_collisions
    simp [findLoop, hBA, hname]

/-- C5 witness: the conflict evaluated in the concrete world of two
unrelated types sharing one full name string. -/
theorem c5_equal_fullname_conflict_witness :
    (sigEqName.isSub TyAB.a TyAB.b = false) ∧
    (sigEqName.isSub TyAB.b TyAB.a = false) ∧
    (sigEqName.name TyAB.a = sigEqName.name TyAB.b) ∧
    ((({ selfId := 0, holders := [] } : Options sigEqName).declare TyAB.a
      = .ok { selfId := 0, holders := [{ ty := TyAB.a, val := none, bound := some 0 }] }) ∧
    (({ selfId := 0, holders := [{ ty := TyAB.a, val := none, bound := some 0 }] } :
        Options sigEqName).declare TyAB.b
      = .error .nameConflict) ∧
    (({ selfId := 0, holders := [] } : Options sigEqName).declare TyAB.b
      = .ok { selfId := 0, holders := [{ ty := TyAB.b, val := none, bound := some 0 }] }) ∧
    (({ selfId := 0, holders := [{ ty := TyAB.b, val := none, bound := some 0 }] } :
        Options sigEqName).declare TyAB.a
      = .error .nameConflict)) :=
  ⟨rfl, rfl, rfl, c5_equal_fullname_conflict rfl rfl rfl⟩

/-- Point modification changes exactly the element at the index. -/
theorem get?_modifyIdx_self {α : Type _} (l : List α) (i : Nat) (f : α → α) :
    (modifyIdx l i f).get? i = (l.get? i).map f := by
  induction l generalizing i with
  | nil => simp [modifyIdx]
  | cons a l ih =>
    cases i with
    | zero => rfl
    | succ i => simpa [modifyIdx] using ih i

/-- Registry over sigN after declaring the defaulted option, unparsed. -/
def sN : Options sigN :=
  { selfId := 0, holders := [{ ty := TyN.n, val := none, bound := some 0 }] }

/-- Registry over sigN after parsing empty input: the default applied. -/
def sN1000 : Options sigN :=
  { selfId := 0, holders := [{ ty := TyN.n, val := some 1000, bound := some 0 }] }

/-- C4 counterexample: an option with default value 1000 is declared and
nothing is specified, yet get_value does not return the default, it
fails with the no-value error: the default only takes effect through
parse, which stores it into the option value. -/
theorem c4_default_requires_parse :
    (sigN.default_value TyN.n = some 1000) ∧
    (({ selfId := 0, holders := [] } : Options sigN).declare TyN.n = .ok sN) ∧
    (sN.get_value TyN.n = .error .noValue) ∧
    (sN.parse [] = .ok sN1000) ∧
    (sN1000.get_value TyN.n = .ok 1000) :=
  ⟨rfl, rfl, rfl, rfl, rfl⟩

/-- C4 (amended): value resolution relative to the declared holder: the
registered default value D of the held option reaches get_value through
a parse whose input carries no key for that option; after set_value S,
get_value returns S; and get_value fails with the no-value error exactly
when the stored option value is absent, the default alone not sufficing
before a parse, see the counterexample. -/
theorem c4_value_precedence_amended {σ : OptSig} {s s3 s4 : Options σ} {T : σ.Ty}
    {i : Nat} {h : Holder σ} {input : List (CName × Int)} {D S : Int}
    (hfind : s.find_option_const T = .ok (some i))
    (hget : s.holders.get? i = some h) :
    ((σ.default_value h.ty = some D) →
     (∀ kv ∈ input, matchesKey h.ty kv.1 = false) →
     s.parse input = .ok s3 → s3.get_value T = .ok D) ∧
    (s.set_value T S = .ok s4 → s4.get_value T = .ok S) ∧
    (s.get_value T = .error .noValue ↔ h.val = none) ∧
    (∀ v : Int, h.val = some v → s.get_value T = .ok v) := by
  have hgv : s.get_value T =
      (match h.val with
       | some v => .ok v
       | none => .error .noValue) := by
    unfold Options.get_value Options.get
    simp only [hfind, hget]
  refine ⟨?_, ?_, ?_, ?_⟩
  · intro hdef hnomatch hp
    unfold Options.parse at hp
    split at hp
    · cases hp
    · split at hp
      · cases hp
      · injection hp with h2
        subst h2
        have hfh : set_from_vm_holder input h = { h with val := some D } := by
          unfold set_from_vm_holder vmLookup
          rw [List.find?_eq_none.mpr, hdef]
          intro kv hkv
          rw [hnomatch kv hkv]
          simp
        unfold Options.get_value Options.get Options.find_option_const
        unfold Options.find_option_const at hfind
        have hfl : findLoop T (List.map (set_from_vm_holder input) s.holders) none 0
            = findLoop T s.holders none 0 :=
          findLoop_map T _ (set_from_vm_holder_ty input) s.holders none 0
        simp only [hfl, hfind, List.get?_map, hget, Option.map_some', hfh]
  · intro hset
    unfold Options.set_value at hset
    rw [hfind] at hset
    injection hset with h2
    subst h2
    unfold Options.get_value Options.get Options.find_option_const
    unfold Options.find_option_const at hfind
    have hfl : findLoop T (modifyIdx s.holders i (fun h2 => { h2 with val := some S })) none 0
        = findLoop T s.holders none 0 :=
      findLoop_modifyIdx T (fun h2 => { h2 with val := some S }) (fun a => rfl) s.holders i none 0
    simp only [hfl, hfind, get?_modifyIdx_self, hget, Option.map_some']
  · rw [hgv]
    cases hv : h.val <;> simp
  · intro v hv
    rw [hgv, hv]

/-- Registry over sigN after set_value 42. -/
def sN42 : Options sigN :=
  { selfId := 0, holders := [{ ty := TyN.n, val := some 42, bound := some 0 }] }

/-- C4 witness: the amended value-precedence behavior evaluated on the
concrete defaulted option. -/
theorem c4_value_precedence_amended_witness :
    (sN.find_option_const TyN.n = .ok (some 0)) ∧
    (sN.holders.get? 0 = some { ty := TyN.n, val := none, bound := some 0 }) ∧
    (((sigN.default_value TyN.n = some 1000) →
      (∀ kv ∈ ([] : List (CName × Int)), @matchesKey sigN TyN.n kv.1 = false) →
      sN.parse [] = .ok sN1000 → sN1000.get_value TyN.n = .ok 1000) ∧
    (sN.set_value TyN.n 42 = .ok sN42 → sN42.get_value TyN.n = .ok 42) ∧
    (sN.get_value TyN.n = .error .noValue ↔
      ({ ty := TyN.n, val := none, bound := some 0 } : Holder sigN).val = none) ∧
    (∀ v : Int, ({ ty := TyN.n, val := none, bound := some 0 } : Holder sigN).val = some v →
      sN.get_value TyN.n = .ok v)) :=
  ⟨rfl, rfl, c4_value_precedence_amended rfl rfl⟩


/-- Unfolding equation of splitOnComma on a nonempty list. -/
theorem splitOnComma_cons (c : Char) (cs : List Char) :
    splitOnComma (c :: cs) =
      if c = ',' then [] :: splitOnComma cs
      else
        match splitOnComma cs with
        | [] => [[c]]
        | t :: ts => (c :: t) :: ts := by
  rfl

/-- A comma-free character list yields itself as the only token. -/
theorem splitOnComma_no_comma {l : List Char} (h : ',' ∉ l) : splitOnComma l = [l] := by
  induction l with
  | nil => rfl
  | cons c cs ih =>
    have hc : ¬ c = ',' := fun hceq => h (by simp [hceq])
    have hcs : ',' ∉ cs := fun hm => h (List.mem_cons_of_mem c hm)
    rw [splitOnComma_cons, if_neg hc, ih hcs]

/-- Splitting separates the comma-free head token from the rest. -/
theorem splitOnComma_append {l rest : List Char} (h : ',' ∉ l) :
    splitOnComma (l ++ ',' :: rest) = l :: splitOnComma rest := by
  induction l with
  | nil => simp [splitOnComma_cons]
  | cons c cs ih =>
    have hc : ¬ c = ',' := fun hceq => h (by simp [hceq])
    have hcs : ',' ∉ cs := fun hm => h (List.mem_cons_of_mem c hm)
    rw [List.cons_append, splitOnComma_cons, if_neg hc, ih hcs]

/-- No produced token contains the separator character. -/
theorem splitOnComma_tokens_no_comma (nm : List Char) :
    ∀ t ∈ splitOnComma nm, ',' ∉ t := by
  induction nm with
  | nil =>
    intro t ht
    simp [splitOnComma] at ht
    subst ht
    simp
  | cons c cs ih =>
    intro t ht
    rw [splitOnComma_cons] at ht
    by_cases hc : c = ','
    · rw [if_pos hc] at ht
      rcases List.mem_cons.mp ht with rfl | ht2
      · simp
      · exact ih t ht2
    · rw [if_neg hc] at ht
      cases hsc : splitOnComma cs with
      | nil =>
        rw [hsc] at ht
        simp at ht
        subst ht
        intro hm
        simp at hm
        exact hc hm.symm
      | cons t0 ts =>
        rw [hsc] at ht
        rcases List.mem_cons.mp ht with rfl | ht2
        · have h0 : ',' ∉ t0 := ih t0 (by rw [hsc]; exact List.mem_cons_self _ _)
          intro hm
          rcases List.mem_cons.mp hm with he | hm2
          · exact hc he.symm
          · exact h0 hm2
        · exact ih t (by rw [hsc]; exact List.mem_cons_of_mem _ ht2)

/-- A single-alphabetic token is a singleton of an alphabetic character. -/
theorem isSingleAlpha_iff {t : List Char} :
    isSingleAlpha t = true ↔ ∃ c, t = [c] ∧ c.isAlpha = true := by
  cases t with
  | nil => simp [isSingleAlpha]
  | cons c cs =>
    cases cs with
    | nil => simp [isSingleAlpha]
    | cons d ds => simp [isSingleAlpha]

/-- A successfully parsed name has a nonempty comma-free long token and
an alphabetic short token when one is present. -/
theorem split_name_ok_props {nm : CName} {so : Option Char} {l : CName}
    (h : split_name nm = .ok (so, l)) :
    l ≠ [] ∧ ',' ∉ l ∧ (∀ c, so = some c → c.isAlpha = true) := by
  unfold split_name at h
  split at h
  · next l0 heq =>
    split at h
    · cases h
    · next hne =>
      simp only [Except.ok.injEq, Prod.mk.injEq] at h
      obtain ⟨h3, h4⟩ := h
      subst h3
      subst h4
      refine ⟨hne, ?_, fun c hc => by cases hc⟩
      exact splitOnComma_tokens_no_comma nm _ (by rw [heq]; exact List.mem_cons_self _ _)
  · next t1 t2 heq =>
    split at h
    · next hcond =>
      rw [Bool.and_eq_true] at hcond
      obtain ⟨hsa, hnem⟩ := hcond
      simp only [Except.ok.injEq, Prod.mk.injEq] at h
      obtain ⟨h3, h4⟩ := h
      subst h3
      subst h4
      rcases isSingleAlpha_iff.mp hsa with ⟨c, hceq, hca⟩
      refine ⟨of_decide_eq_true hnem, ?_, ?_⟩
      · exact splitOnComma_tokens_no_comma nm _ (by rw [heq]; exact List.mem_cons_self _ _)
      · intro c2 hc2
        injection hc2 with hc3
        rw [← hc3, hceq]
        simpa using hca
    · split at h
      · next hcond =>
        rw [Bool.and_eq_true] at hcond
        obtain ⟨hsa, hnem⟩ := hcond
        simp only [Except.ok.injEq, Prod.mk.injEq] at h
        obtain ⟨h3, h4⟩ := h
        subst h3
        subst h4
        rcases isSingleAlpha_iff.mp hsa with ⟨c, hceq, hca⟩
        refine ⟨of_decide_eq_true hnem, ?_, ?_⟩
        · exact splitOnComma_tokens_no_comma nm _
            (by rw [heq]; exact List.mem_cons_of_mem t1 (List.mem_cons_self t2 []))
        · intro c2 hc2
          injection hc2 with hc3
          rw [← hc3, hceq]
          simpa using hca
      · cases h
  · cases h

/-- Single-character tokens are single-alphabetic exactly when the
character is alphabetic. -/
theorem isSingleAlpha_singleton (c : Char) : isSingleAlpha [c] = c.isAlpha := rfl

/-- The empty token is not a single-alphabetic token. -/
theorem isSingleAlpha_nil : isSingleAlpha [] = false := rfl

/-- An alphabetic character is not the separator. -/
theorem alpha_not_comma {c : Char} (hca : c.isAlpha = true) : ',' ∉ [c] := by
  intro hm
  simp at hm
  rw [← hm] at hca
  exact absurd hca (by decide)

/-- A bare comma-free long token parses to itself with no short name. -/
theorem split_name_long_only {l : CName} (hne : l ≠ []) (hc : ',' ∉ l) :
    split_name l = .ok (none, l) := by
  unfold split_name
  rw [splitOnComma_no_comma hc]
  simp [hne]

/-- A long,short specification parses to the pair of its tokens. -/
theorem split_name_long_short {l : CName} {c : Char} (hne : l ≠ []) (hcomma : ',' ∉ l)
    (hca : c.isAlpha = true) :
    split_name (l ++ [','] ++ [c]) = .ok (some c, l) := by
  unfold split_name
  rw [show l ++ [','] ++ [c] = l ++ ',' :: [c] from by simp,
    splitOnComma_append hcomma, splitOnComma_no_comma (alpha_not_comma hca)]
  simp [isSingleAlpha_singleton, hca, hne]

/-- A short,long specification parses to the pair of its tokens when the
long token is not itself a single letter. -/
theorem split_name_short_long {c : Char} {l : CName} (hca : c.isAlpha = true)
    (hne : l ≠ []) (hcomma : ',' ∉ l) (hns : isSingleAlpha l = false) :
    split_name ([c] ++ [','] ++ l) = .ok (some c, l) := by
  unfold split_name
  rw [show [c] ++ [','] ++ l = [c] ++ ',' :: l from by simp,
    splitOnComma_append (alpha_not_comma hca), splitOnComma_no_comma hcomma]
  simp [hns, isSingleAlpha_singleton, hca, hne]

/-- A trailing comma with no short token is rejected. -/
theorem split_name_trailing_comma {l : CName} (hcomma : ',' ∉ l) :
    split_name (l ++ [',']) = .error .nameFormat := by
  unfold split_name
  rw [show l ++ [','] = l ++ ',' :: ([] : List Char) from rfl, splitOnComma_append hcomma]
  simp [splitOnComma, isSingleAlpha_nil]

/-- A leading comma with no long token is rejected. -/
theorem split_name_leading_comma {t : CName} (hcomma : ',' ∉ t) :
    split_name (',' :: t) = .error .nameFormat := by
  unfold split_name
  rw [show (',' :: t : List Char) = [] ++ ',' :: t from rfl,
    splitOnComma_append (by simp), splitOnComma_no_comma hcomma]
  simp [isSingleAlpha_nil]

/-- Two tokens neither of which is a single letter are rejected. -/
theorem split_name_bad_short {l t : CName} (hcl : ',' ∉ l) (hct : ',' ∉ t)
    (hnsl : isSingleAlpha l = false) (hnst : isSingleAlpha t = false) :
    split_name (l ++ ',' :: t) = .error .nameFormat := by
  unfold split_name
  rw [splitOnComma_append hcl, splitOnComma_no_comma hct]
  simp [hnsl, hnst]

/-- Reparsing a name rebuilt from parsed parts gives the same parts. -/
theorem split_name_roundtrip {nm : CName} {p : Option Char × CName}
    (h : split_name nm = .ok p) : split_name (reconstruct_name p) = .ok p := by
  obtain ⟨so, l⟩ := p
  obtain ⟨hne, hcomma, halpha⟩ := split_name_ok_props h
  cases so with
  | none => exact split_name_long_only hne hcomma
  | some c => exact split_name_long_short hne hcomma (halpha c rfl)

/-- C6: the name grammar.  Modelled from the spec since the parsing
members are stubs in src/Options.h: a well-formed long, long-comma-short
or short-comma-long specification parses into its short character (or
its recorded absence) and long token, the parsed parts reparse to the
same parts after reconstruction, and the malformed shapes, empty name,
empty long token, empty short token after a comma, or a short token that
is not one alphabetic character, fail with the name-format error. -/
theorem c6_name_grammar :
    (∀ l : CName, l ≠ [] → ',' ∉ l →
      split_name l = .ok (none, l) ∧ name_short l = .ok none ∧ name_long l = .ok l) ∧
    (∀ (l : CName) (c : Char), l ≠ [] → ',' ∉ l → c.isAlpha = true →
      split_name (l ++ [','] ++ [c]) = .ok (some c, l) ∧
      name_short (l ++ [','] ++ [c]) = .ok (some c) ∧
      name_long (l ++ [','] ++ [c]) = .ok l) ∧
    (∀ (c : Char) (l : CName), c.isAlpha = true → l ≠ [] → ',' ∉ l →
      isSingleAlpha l = false →
      split_name ([c] ++ [','] ++ l) = .ok (some c, l) ∧
      name_short ([c] ++ [','] ++ l) = .ok (some c) ∧
      name_long ([c] ++ [','] ++ l) = .ok l) ∧
    (∀ (nm : CName) (p : Option Char × CName), split_name nm = .ok p →
      split_name (reconstruct_name p) = .ok p) ∧
    (split_name [] = .error .nameFormat) ∧
    (∀ l : CName, ',' ∉ l → split_name (l ++ [',']) = .error .nameFormat) ∧
    (∀ t : CName, ',' ∉ t → split_name (',' :: t) = .error .nameFormat) ∧
    (∀ l t : CName, ',' ∉ l → ',' ∉ t → isSingleAlpha l = false →
      isSingleAlpha t = false → split_name (l ++ ',' :: t) = .error .nameFormat) := by
  refine ⟨?_, ?_, ?_, ?_, rfl, ?_, ?_, ?_⟩
  · intro l hne hc
    have hs := split_name_long_only hne hc
    exact ⟨hs, by unfold name_short; rw [hs]; rfl, by unfold name_long; rw [hs]; rfl⟩
  · intro l c hne hc hca
    have hs := split_name_long_short hne hc hca
    exact ⟨hs, by unfold name_short; rw [hs]; rfl, by unfold name_long; rw [hs]; rfl⟩
  · intro c l hca hne hc hns
    have hs := split_name_short_long hca hne hc hns
    exact ⟨hs, by unfold name_short; rw [hs]; rfl, by unfold name_long; rw [hs]; rfl⟩
  · intro nm p hp
    exact split_name_roundtrip hp
  · intro l hc
    exact split_name_trailing_comma hc
  · intro t hc
    exact split_name_leading_comma hc
  · intro l t hcl hct hnsl hnst
    exact split_name_bad_short hcl hct hnsl hnst

/-- C6 witness: the grammar evaluated on concrete specifications. -/
theorem c6_name_grammar_witness :
    (split_name ['n'] = .ok (none, ['n']) ∧ name_short ['n'] = .ok none ∧
      name_long ['n'] = .ok ['n']) ∧
    (split_name (['n', 'e'] ++ [','] ++ ['N']) = .ok (some 'N', ['n', 'e']) ∧
      name_short (['n', 'e'] ++ [','] ++ ['N']) = .ok (some 'N') ∧
      name_long (['n', 'e'] ++ [','] ++ ['N']) = .ok ['n', 'e']) ∧
    (split_name (['N'] ++ [','] ++ ['n', 'e']) = .ok (some 'N', ['n', 'e']) ∧
      name_short (['N'] ++ [','] ++ ['n', 'e']) = .ok (some 'N') ∧
      name_long (['N'] ++ [','] ++ ['n', 'e']) = .ok ['n', 'e']) ∧
    (split_name (reconstruct_name (some 'N', ['n', 'e'])) = .ok (some 'N', ['n', 'e'])) ∧
    (split_name (['n', 'e'] ++ [',']) = .error .nameFormat) ∧
    (split_name (',' :: ['N']) = .error .nameFormat) ∧
    (split_name (['x', 'y'] ++ ',' :: ['a', 'b']) = .error .nameFormat) := by
  refine ⟨?_, ?_, ?_, ?_, ?_, ?_, ?_⟩
  · exact c6_name_grammar.1 ['n'] (by decide) (by decide)
  · exact c6_name_grammar.2.1 ['n', 'e'] 'N' (by decide) (by decide) (by decide)
  · exact c6_name_grammar.2.2.1 'N' ['n', 'e'] (by decide) (by decide) (by decide) (by decide)
  · exact c6_name_grammar.2.2.2.1 (['N'] ++ [','] ++ ['n', 'e']) (some 'N', ['n', 'e'])
      (c6_name_grammar.2.2.1 'N' ['n', 'e'] (by decide) (by decide) (by decide) (by decide)).1
  · exact c6_name_grammar.2.2.2.2.2.1 ['n', 'e'] (by decide)
  · exact c6_name_grammar.2.2.2.2.2.2.1 ['N'] (by decide)
  · exact c6_name_grammar.2.2.2.2.2.2.2 ['x', 'y'] ['a', 'b'] (by decide) (by decide)
      (by decide) (by decide)

/-- Registry over sigN whose option holds the value 5. -/
def sN5 : Options sigN :=
  { selfId := 0, holders := [{ ty := TyN.n, val := some 5, bound := some 0 }] }

/-- Two-registry world: the original defaulted registry and the copy of
the valued registry. -/
def worldN : Nat → Options sigN :=
  fun rid => match rid with
  | 0 => sN5
  | _ => sN5.copyCtor 1

/-- C8: cloning through the type-erased wrapper interface copies the
wrapped object memberwise, preserving its most-derived concrete type
and its whole state with no slicing; consequently a registry copy,
which clones each holder through the polymorphic copy constructor,
preserves every holder's concrete type and value.  The clone is
synthesized by the wrapper from the concrete type captured at
construction, not requested from the option type itself. -/
theorem c8_clone_preserves_type_and_state {σ : OptSig} (h : Holder σ) :
    (Holder.clone h).ty = h.ty ∧ (Holder.clone h).val = h.val ∧
    (Holder.clone h).bound = h.bound ∧ Holder.clone h = h ∧
    (∀ (s : Options σ) (newId : Nat),
      (s.copyCtor newId).holders.map Holder.ty = s.holders.map Holder.ty ∧
      (s.copyCtor newId).holders.map Holder.val = s.holders.map Holder.val) := by
  refine ⟨rfl, rfl, rfl, rfl, ?_⟩
  intro s newId
  unfold Options.copyCtor Options.rebindAll Holder.clone
  constructor
  · rw [List.map_map, List.map_map]
    rfl
  · rw [List.map_map, List.map_map]
    rfl

/-- C9: copying, moving or assigning a whole registry rebinds every
contained option's back-reference to the destination registry while
preserving each holder's concrete type and value, so a cross-option
lookup made through an option of the copy resolves in the copy's state,
not the original's. -/
theorem c9_copy_rebinds_backrefs {σ : OptSig} (world : Nat → Options σ)
    (src dst : Options σ) (newId : Nat) (h : Holder σ) (T : σ.Ty) :
    (∀ h2 ∈ (src.copyCtor newId).holders, h2.bound = some newId) ∧
    (∀ h2 ∈ (src.moveCtor newId).holders, h2.bound = some newId) ∧
    (∀ h2 ∈ (dst.assignFrom src).holders, h2.bound = some dst.selfId) ∧
    (∀ h2 ∈ (dst.moveAssignFrom src).holders, h2.bound = some dst.selfId) ∧
    ((src.copyCtor newId).holders.map Holder.ty = src.holders.map Holder.ty) ∧
    ((src.copyCtor newId).holders.map Holder.val = src.holders.map Holder.val) ∧
    (h ∈ (src.copyCtor newId).holders →
      OptionBase.get_options world h = .ok (world newId) ∧
      OptionBase.get_value world h T = (world newId).get_value T) := by
  refine ⟨?_, ?_, ?_, ?_, ?_, ?_, ?_⟩
  · intro h2 hm
    obtain ⟨a, _, rfl⟩ := List.mem_map.mp hm
    rfl
  · intro h2 hm
    obtain ⟨a, _, rfl⟩ := List.mem_map.mp hm
    rfl
  · intro h2 hm
    obtain ⟨a, _, rfl⟩ := List.mem_map.mp hm
    rfl
  · intro h2 hm
    obtain ⟨a, _, rfl⟩ := List.mem_map.mp hm
    rfl
  · unfold Options.copyCtor Options.rebindAll Holder.clone
    rw [List.map_map, List.map_map]
    rfl
  · unfold Options.copyCtor Options.rebindAll Holder.clone
    rw [List.map_map, List.map_map]
    rfl
  · intro hm
    obtain ⟨a, _, rfl⟩ := List.mem_map.mp hm
    exact ⟨rfl, rfl⟩

/-- C9 witness: the rebinding evaluated on a concrete copied registry,
whose held option reads the value stored in the copy. -/
theorem c9_copy_rebinds_backrefs_witness :
    ({ ty := TyN.n, val := some 5, bound := some 1 } : Holder sigN) ∈
      (sN5.copyCtor 1).holders ∧
    ((∀ h2 ∈ (sN5.copyCtor 1).holders, h2.bound = some 1) ∧
    (∀ h2 ∈ (sN5.moveCtor 1).holders, h2.bound = some 1) ∧
    (∀ h2 ∈ (sN.assignFrom sN5).holders, h2.bound = some sN.selfId) ∧
    (∀ h2 ∈ (sN.moveAssignFrom sN5).holders, h2.bound = some sN.selfId) ∧
    ((sN5.copyCtor 1).holders.map Holder.ty = sN5.holders.map Holder.ty) ∧
    ((sN5.copyCtor 1).holders.map Holder.val = sN5.holders.map Holder.val) ∧
    (({ ty := TyN.n, val := some 5, bound := some 1 } : Holder sigN) ∈
        (sN5.copyCtor 1).holders →
      OptionBase.get_options worldN { ty := TyN.n, val := some 5, bound := some 1 }
        = .ok (worldN 1) ∧
      OptionBase.get_value worldN { ty := TyN.n, val := some 5, bound := some 1 } TyN.n
        = (worldN 1).get_value TyN.n)) :=
  ⟨by simp [Options.copyCtor, Options.rebindAll, sN5, Holder.clone],
    c9_copy_rebinds_backrefs worldN sN5 sN 1
      { ty := TyN.n, val := some 5, bound := some 1 } TyN.n⟩

/-- C10: an option instance never bound to a registry reports through
every cross-option access path that it is not associated with any
Options object: get_options, cross get and cross get_value all fail
with that error instead of following a null back-reference. -/
theorem c10_unbound_option_errors {σ : OptSig} (world : Nat → Options σ)
    (h : Holder σ) (T : σ.Ty) (hb : h.bound = none) :
    OptionBase.get_options world h = .error .notAssociated ∧
    OptionBase.get world h T = .error .notAssociated ∧
    OptionBase.get_value world h T = .error .notAssociated := by
  have hgo : OptionBase.get_options world h = .error .notAssociated := by
    unfold OptionBase.get_options
    rw [hb]
  refine ⟨hgo, ?_, ?_⟩
  · unfold OptionBase.get
    rw [hgo]
  · unfold OptionBase.get_value
    rw [hgo]

/-- C10 witness: the errors evaluated on a concrete unbound option. -/
theorem c10_unbound_option_errors_witness :
    (({ ty := TyN.n, val := none, bound := none } : Holder sigN).bound = none) ∧
    (OptionBase.get_options (fun _ => sN) { ty := TyN.n, val := none, bound := none }
      = .error .notAssociated ∧
    OptionBase.get (fun _ => sN) { ty := TyN.n, val := none, bound := none } TyN.n
      = .error .notAssociated ∧
    OptionBase.get_value (fun _ => sN) { ty := TyN.n, val := none, bound := none } TyN.n
      = .error .notAssociated) :=
  ⟨rfl, c10_unbound_option_errors (fun _ => sN)
    { ty := TyN.n, val := none, bound := none } TyN.n rfl⟩
